import Mathlib

/-!
Verification of the field-extraction and normalization engine of
`pdf_parse_rishi_shirish_shah.py`.

The Python module drives everything through `re.search` with five fixed
patterns (`RE_DATE`, `RE_LAST4`, `RE_TOTAL_BAL`, `RE_DUE_DATE`,
`RE_STATEMENT_PERIOD`, all used with `re.IGNORECASE`), plus a whole-word
case-insensitive scan for the card-network vocabulary.  We embed Python's
backtracking regex semantics for exactly these patterns with a
list-of-successes matcher: a matching step maps a position in the text to
the list of positions it can reach, *in the engine's preference order*
(alternatives in written order, greedy quantifiers longest first), and
`re.search` is "first start position, first outcome in preference order".
Every quantifier in the five patterns ranges over a single character class,
so the list of outcomes of a quantifier is the finite list of run lengths,
longest first — this reproduces Python's backtracking exactly for these
patterns.

Strings are modelled as `List Char`; case-insensitivity is modelled by
ASCII case folding (`lowerChar`), and `\w`/`\s`/`\d` by their ASCII
subsets, which is faithful for all inputs considered here.
-/

namespace PdfParse

/-! ### Character classes (ASCII models of Python's `\s`, `\w`, `\d`) -/

/-- Python regex `\s` (ASCII subset): space, tab, newline, CR, VT, FF. -/
def isWsChar (c : Char) : Bool :=
  c = ' ' || c = '\t' || c = '\n' || c = '\r' || c = '\x0b' || c = '\x0c'

/-- Python regex `\w` (ASCII subset): letters, digits, underscore. -/
def isWordChar (c : Char) : Bool :=
  ('a' ≤ c && c ≤ 'z') || ('A' ≤ c && c ≤ 'Z') || ('0' ≤ c && c ≤ '9') || c = '_'

/-- ASCII case folding, as used by `re.IGNORECASE` on the inputs at hand. -/
def lowerChar (c : Char) : Char :=
  if 'A' ≤ c && c ≤ 'Z' then Char.ofNat (c.toNat + 32) else c

/-- Python `str.strip()` (ASCII whitespace model). -/
def pyStrip (s : String) : String :=
  String.mk (((s.data.dropWhile isWsChar).reverse.dropWhile isWsChar).reverse)

/-- `re.search(r'\d', g)` as used to filter captured groups. -/
def hasDigit (s : String) : Bool := s.data.any (fun c => c.isDigit)

/-! ### Positions and the list-of-successes matcher monad -/

/-- A position inside the subject text: the character just before the
position (`none` at the start of the string) — needed for `\b` — and the
remaining characters. -/
structure Pos where
  prev : Option Char
  rest : List Char
deriving Repr, DecidableEq

/-- Consume `k` characters, updating the `prev` character. -/
def Pos.consume (p : Pos) (k : Nat) : Pos :=
  { prev := match (p.rest.take k).getLast? with
      | some c => some c
      | none => p.prev
    rest := p.rest.drop k }

/-- Matcher monad: a step maps a position to all reachable outcomes,
in the regex engine's preference order. -/
def P (α : Type) : Type := Pos → List (α × Pos)

def P.pure (a : α) : P α := fun p => [(a, p)]

def P.bind (m : P α) (f : α → P β) : P β :=
  fun p => (m p).flatMap (fun x => f x.1 x.2)

instance : Monad P where
  pure := P.pure
  bind := P.bind

/-- Alternation `x|y|…`: outcomes in written order. -/
def palt (ms : List (P α)) : P α := fun p => ms.flatMap (fun m => m p)

/-- Zero-width assertion. -/
def pguard (b : Pos → Bool) : P Unit :=
  fun p => if b p then [((), p)] else []

def isWordO : Option Char → Bool
  | none => false
  | some c => isWordChar c

/-- The `\b` assertion: word/non-word transition (string edges count as
non-word). -/
def boundaryB : P Unit :=
  pguard (fun p => isWordO p.prev != isWordO p.rest.head?)

/-- A literal, compared under `re.IGNORECASE` (ASCII case folding; exact
on characters without case). -/
def litCI (s : String) : P Unit := fun p =>
  let n := s.data.length
  if (p.rest.take n).map lowerChar = s.data.map lowerChar then
    [((), p.consume n)]
  else []

/-- Length of the maximal leading run of characters satisfying `f`. -/
def leadCount (f : Char → Bool) : List Char → Nat
  | [] => 0
  | c :: cs => if f c then leadCount f cs + 1 else 0

/-- Greedy character-class quantifier `X{lo,hi}` (`hi = none` for `X{lo,}`):
all run lengths between `lo` and the maximal run, longest first. -/
def runs (f : Char → Bool) (lo : Nat) (hi : Option Nat) : P Unit := fun p =>
  let k := leadCount f p.rest
  let m := (hi.map (fun h => min k h)).getD k
  if lo ≤ m then (List.range (m + 1 - lo)).map (fun t => ((), p.consume (m - t)))
  else []

/-- Greedy `X?` on a sub-matcher: with it first, then without. -/
def popt (m : P Unit) : P Unit := fun p => m p ++ [((), p)]

/-- The text consumed between two positions. -/
def spanStr (p q : Pos) : String :=
  String.mk (p.rest.take (p.rest.length - q.rest.length))

/-- A capture group: the sub-matcher's consumed span. -/
def capture (m : P Unit) : P String :=
  fun p => (m p).map (fun x => (spanStr p x.2, x.2))

/-- Capture the whole span of `m` while keeping its result (used for
`m.group(0)`). -/
def captureBoth (m : P α) : P (String × α) :=
  fun p => (m p).map (fun x => ((spanStr p x.2, x.1), x.2))

/-- All positions of a subject suffix, left to right, threading `prev`. -/
def positions : Option Char → List Char → List Pos
  | pr, [] => [⟨pr, []⟩]
  | pr, c :: cs => ⟨pr, c :: cs⟩ :: positions (some c) cs

/-- `re.search`: try every start position left to right; at the first
position with any outcome, return the most preferred one. -/
def searchAll (m : P α) : Option Char → List Char → Option α
  | pr, [] => ((m ⟨pr, []⟩).head?).map (fun x => x.1)
  | pr, c :: cs =>
    match (m ⟨pr, c :: cs⟩).head? with
    | some x => some x.1
    | none => searchAll m (some c) cs

/-- `re.search(pattern, text, re.IGNORECASE)` for one of the embedded
patterns. -/
def reSearch (m : P α) (s : String) : Option α :=
  searchAll m none s.data

/-! ### The pattern library (shallow embedding of the five regexes)

Each definition transcribes one of the Python patterns piece by piece;
alternation lists are in the written order of the pattern. -/

/-- One character of a class (`[...]`). -/
def one (f : Char → Bool) : P Unit := runs f 1 (some 1)

/-- `\s*`. -/
def wsStar : P Unit := runs isWsChar 0 none

/-- `\s+`. -/
def wsPlus : P Unit := runs isWsChar 1 none

/-- The month alternatives of `RE_DATE`, in pattern order:
`Jan|Feb|Mar|Apr|May|Jun|Jul|Aug|Sep|Sept|Oct|Nov|Dec`. -/
def monthAbbrevs : List String :=
  ["Jan", "Feb", "Mar", "Apr", "May", "Jun", "Jul", "Aug", "Sep", "Sept",
   "Oct", "Nov", "Dec"]

/-- `RE_DATE` (the content of its single capture group; the group spans the
whole match):
`\b(?:Jan|…|Dec|\d{1,2})[\.]?\s*\d{1,2}[,]?\s*\d{2,4}\b`
`|\b\d{1,2}/\d{1,2}/\d{2,4}\b|\b\d{4}-\d{2}-\d{2}\b`. -/
def reDateM : P Unit :=
  palt [
    (do boundaryB
        palt (monthAbbrevs.map litCI ++ [runs Char.isDigit 1 (some 2)])
        popt (litCI ".")
        wsStar
        runs Char.isDigit 1 (some 2)
        popt (litCI ",")
        wsStar
        runs Char.isDigit 2 (some 4)
        boundaryB),
    (do boundaryB
        runs Char.isDigit 1 (some 2)
        litCI "/"
        runs Char.isDigit 1 (some 2)
        litCI "/"
        runs Char.isDigit 2 (some 4)
        boundaryB),
    (do boundaryB
        runs Char.isDigit 4 (some 4)
        litCI "-"
        runs Char.isDigit 2 (some 2)
        litCI "-"
        runs Char.isDigit 2 (some 2)
        boundaryB) ]

/-- The optional connector of `RE_LAST4`:
`(?:ending\s*in|ending|Number|No\.|#|:)`. -/
def last4Connector : P Unit :=
  palt [
    (do litCI "ending"
        wsStar
        litCI "in"),
    litCI "ending", litCI "Number", litCI "No.", litCI "#", litCI ":" ]

/-- `RE_LAST4`:
`(?:\b(?:Account|Acct|Card)\s*(?:ending\s*in|ending|Number|No\.|#|:)?\s*(\d{4})\b)`
`|(?:\*\*+(\d{4})\b)`.  The result is the pair `(group 1, group 2)`;
exactly one of the two is `some` depending on which alternative matched. -/
def reLast4M : P (Option String × Option String) :=
  palt [
    (do boundaryB
        palt [litCI "Account", litCI "Acct", litCI "Card"]
        wsStar
        popt last4Connector
        wsStar
        let d ← capture (runs Char.isDigit 4 (some 4))
        boundaryB
        pure (some d, none)),
    (do litCI "*"
        runs (fun c => c = '*') 1 none
        let d ← capture (runs Char.isDigit 4 (some 4))
        boundaryB
        pure (none, some d)) ]

/-- The label alternation of `RE_TOTAL_BAL`:
`(?:Total(?:\s|-)Balance|Statement\s+Balance|New\s+Balance|Balance\s+Due|Amount\s+Due)`. -/
def balLabel : P Unit :=
  palt [
    (do litCI "Total"
        one (fun c => isWsChar c || c = '-')
        litCI "Balance"),
    (do litCI "Statement"
        wsPlus
        litCI "Balance"),
    (do litCI "New"
        wsPlus
        litCI "Balance"),
    (do litCI "Balance"
        wsPlus
        litCI "Due"),
    (do litCI "Amount"
        wsPlus
        litCI "Due") ]

/-- `RE_TOTAL_BAL`: the label, then `\s*[:\s]\$?\s*([-,\d\.]+)`; the result
is the capture group. -/
def reTotalBalM : P String := do
  balLabel
  wsStar
  one (fun c => c = ':' || isWsChar c)
  popt (litCI "$")
  wsStar
  capture (runs (fun c => c = '-' || c = ',' || c.isDigit || c = '.') 1 none)

/-- `RE_DUE_DATE`:
`(?:Payment\s+Due\s+Date|Due\s+Date|Payment\s+Due)\s*[:\s]\s*` + `RE_DATE`;
the result is the date capture group. -/
def reDueDateM : P String := do
  palt [
    (do litCI "Payment"
        wsPlus
        litCI "Due"
        wsPlus
        litCI "Date"),
    (do litCI "Due"
        wsPlus
        litCI "Date"),
    (do litCI "Payment"
        wsPlus
        litCI "Due") ]
  wsStar
  one (fun c => c = ':' || isWsChar c)
  wsStar
  capture reDateM

/-- The separator of `RE_STATEMENT_PERIOD` after the label:
`\s*[:\s\-–]+\s*`. -/
def spSep : P Unit := do
  wsStar
  runs (fun c => c = ':' || isWsChar c || c = '-' || c = '–') 1 none
  wsStar

/-- `RE_STATEMENT_PERIOD`:
`(?:Statement\s+Period|Billing\s+Period|Statement\s+Date[s]?)`
`\s*[:\s\-–]+\s*(RE_DATE)\s*(?:to|-|–)\s*(RE_DATE)`.
The result is `(m.group(0), first date, second date)`.  Note that group 1
(resp. 3) is the outer parenthesis around the first (resp. second)
`RE_DATE`, and group 2 (resp. 4) is `RE_DATE`'s own group, which spans the
same text, so each date span occurs twice in `m.groups()`. -/
def reSPM : P (String × String × String) := do
  let x ← captureBoth (do
    palt [
      (do litCI "Statement"
          wsPlus
          litCI "Period"),
      (do litCI "Billing"
          wsPlus
          litCI "Period"),
      (do litCI "Statement"
          wsPlus
          litCI "Date"
          popt (litCI "s")) ]
    spSep
    let d1 ← capture reDateM
    wsStar
    palt [litCI "to", litCI "-", litCI "–"]
    wsStar
    let d2 ← capture reDateM
    pure (d1, d2))
  pure (x.1, x.2.1, x.2.2)

/-- `CARD_TYPES` from the source, in order. -/
def CARD_TYPES : List String :=
  ["VISA", "MASTERCARD", "AMEX", "AMERICAN EXPRESS", "DISCOVER"]

/-- The per-card pattern `r'\b' + re.escape(ct) + r'\b'` (`re.escape` leaves
the letters and the space of the vocabulary entries unchanged). -/
def wwM (w : String) : P Unit := do
  boundaryB
  litCI w
  boundaryB

/-- Whether `re.search(r'\b' + re.escape(w) + r'\b', text, re.IGNORECASE)`
finds a match. -/
def wwSearch (w text : String) : Bool := (reSearch (wwM w) text).isSome

/-! ### The date normalizer (`parse_dates`) -/

/-- A calendar date as produced by `dateutil.parser.parse(...).date()`. -/
structure PyDate where
  year : Nat
  month : Nat
  day : Nat
deriving Repr, DecidableEq

def digitOf (n : Nat) : Char := Char.ofNat (48 + n % 10)

/-- `datetime.date.isoformat()`: `YYYY-MM-DD`, zero padded (years of the
model are at most 9999). -/
def PyDate.isoformat (d : PyDate) : String :=
  String.mk [digitOf (d.year / 1000), digitOf (d.year / 100),
    digitOf (d.year / 10), digitOf d.year, '-', digitOf (d.month / 10),
    digitOf d.month, '-', digitOf (d.day / 10), digitOf d.day]

/-- Tokens of a date string: alphabetic runs, digit runs (value and digit
count), other non-space characters. -/
inductive DTok where
  | alpha (s : String)
  | num (v : Nat) (len : Nat)
  | sym (c : Char)
deriving Repr, DecidableEq, BEq

def natOfDigits (cs : List Char) : Nat :=
  cs.foldl (fun a c => a * 10 + (c.toNat - 48)) 0

/-- Flush a pending alphabetic (`true`) or numeric (`false`) run, kept in
reverse order. -/
def flushTok : Option (Bool × List Char) → List DTok
  | none => []
  | some (true, cs) => [DTok.alpha (String.mk cs.reverse)]
  | some (false, cs) => [DTok.num (natOfDigits cs.reverse) cs.length]

def tokStep (st : List DTok × Option (Bool × List Char)) (c : Char) :
    List DTok × Option (Bool × List Char) :=
  if c.isAlpha then
    match st.2 with
    | some (true, cs) => (st.1, some (true, c :: cs))
    | _ => (st.1 ++ flushTok st.2, some (true, [c]))
  else if c.isDigit then
    match st.2 with
    | some (false, cs) => (st.1, some (false, c :: cs))
    | _ => (st.1 ++ flushTok st.2, some (false, [c]))
  else if isWsChar c then (st.1 ++ flushTok st.2, none)
  else (st.1 ++ flushTok st.2 ++ [DTok.sym c], none)

/-- Group a date string into alphabetic runs, digit runs and other
non-space symbols, skipping whitespace. -/
def tokenizeDate (cs : List Char) : List DTok :=
  let r := cs.foldl tokStep ([], none)
  r.1 ++ flushTok r.2

/-- English month names and abbreviations known to `dateutil` (lower
case; `sept` included). -/
def monthTable : List (String × Nat) :=
  [("jan", 1), ("january", 1), ("feb", 2), ("february", 2), ("mar", 3),
   ("march", 3), ("apr", 4), ("april", 4), ("may", 5), ("jun", 6),
   ("june", 6), ("jul", 7), ("july", 7), ("aug", 8), ("august", 8),
   ("sep", 9), ("sept", 9), ("september", 9), ("oct", 10), ("october", 10),
   ("nov", 11), ("november", 11), ("dec", 12), ("december", 12)]

def monthNum (s : String) : Option Nat :=
  monthTable.lookup (String.mk (s.data.map lowerChar))

def isLeap (y : Nat) : Bool := (y % 4 = 0 && y % 100 ≠ 0) || y % 400 = 0

def daysInMonth (y m : Nat) : Nat :=
  if m = 2 then (if isLeap y then 29 else 28)
  else if m = 4 || m = 6 || m = 9 || m = 11 then 30
  else 31

/-- `dateutil`'s century inference for 2-digit years: the century of the
current year, shifted by 100 when that leaves the ±50-year window around
the current year (2026: `..76` → `20xx`, `77..` → `19xx`). -/
def expandYear (v len : Nat) : Nat :=
  if len ≤ 2 then (if v ≤ 76 then 2000 + v else 1900 + v) else v

/-- Range validation performed by `datetime.date`; out-of-range values make
`dateutil` raise, which `parse_dates` turns into its fallback. -/
def mkPyDate (y m d : Nat) : Option PyDate :=
  if 1 ≤ m ∧ m ≤ 12 ∧ 1 ≤ d ∧ d ≤ daysInMonth y m ∧ 1 ≤ y ∧ y ≤ 9999 then
    some ⟨y, m, d⟩
  else none

/-- Modelled from the spec: the underlying third-party date parser
(`dateutil.parser.parse(datestr, dayfirst=False)`, whose source is not part
of this repository), restricted to the date shapes the spec's Date grammar
produces — month-name day year (optional `.` and `,`), slash-separated
numeric `M/D/Y` (falling back to day-first only when the first number
cannot be a month), and ISO `YYYY-MM-DD`; 2-digit years take the standard
century-inference rule.  Strings outside these shapes are treated as parse
failures (`None`), which `parse_dates` maps to its degraded fallback. -/
def dateutilParse (s : String) : Option PyDate :=
  let ts := (tokenizeDate s.data).filter
    (fun t => !(t == DTok.sym ',' || t == DTok.sym '.'))
  match ts with
  | [DTok.alpha mon, DTok.num d _, DTok.num y yl] =>
    (monthNum mon).bind (fun m => mkPyDate (expandYear y yl) m d)
  | [DTok.num a _, DTok.sym '/', DTok.num b _, DTok.sym '/', DTok.num y yl] =>
    if a ≤ 12 then mkPyDate (expandYear y yl) a b
    else mkPyDate (expandYear y yl) b a
  | [DTok.num a _, DTok.num b _, DTok.num y yl] =>
    if a ≤ 12 then mkPyDate (expandYear y yl) a b
    else mkPyDate (expandYear y yl) b a
  | [DTok.num y yl, DTok.sym '-', DTok.num m _, DTok.sym '-', DTok.num d _] =>
    if yl = 4 then mkPyDate y m d else none
  | _ => none

/-- `parse_dates` (source lines 50–56): normalize to ISO on success; on any
parse failure return the stripped input — the `try/except` swallows every
exception, so the function is total. -/
def parse_dates (datestr : String) : String :=
  match dateutilParse datestr with
  | some dt => dt.isoformat
  | none => pyStrip datestr

/-! ### The field extractor (`extract_fields_from_text`, lines 79–126) -/

/-- The two possible shapes of the `statement_period` value: the normal
`{"start": …, "end": …}` dict, or the raw matched span assigned by the
`except` branch. -/
inductive SPVal where
  | period (startDate endDate : String)
  | raw (s : String)
deriving Repr, DecidableEq

/-- The result of `extract_fields_from_text`: the Python function returns a
dict with exactly the keys `card_type`, `last4`, `statement_period`,
`due_date`, `total_balance` (each possibly `None`) and `confidence` (a
nested dict).  `Option.none` models Python `None`. -/
structure Extracted where
  card_type : Option String
  last4 : Option String
  statement_period : Option SPVal
  due_date : Option String
  total_balance : Option String
  confidence : List (String × ℚ)
deriving Repr, DecidableEq

/-- `ct.upper()` (ASCII). -/
def upperChar (c : Char) : Char :=
  if 'a' ≤ c && c ≤ 'z' then Char.ofNat (c.toNat - 32) else c

def pyUpper (s : String) : String := String.mk (s.data.map upperChar)

/-- Lines 82–86: the first `CARD_TYPES` entry (in list order) found in the
text as a whole word, case-insensitively. -/
def cardTypeBlock (text : String) : Option (String × ℚ) :=
  (CARD_TYPES.find? (fun ct => wwSearch ct text)).map
    (fun ct => (pyUpper ct, (19 : ℚ) / 20))

/-- Line 90: `next((g for g in m.groups() if g and re.fullmatch(r'\d{4}', g)), None)`. -/
def last4OfGroups (gs : List (Option String)) : Option String :=
  gs.findSome? (fun g => match g with
    | some s =>
      if s.length = 4 ∧ s.data.all Char.isDigit then some s else none
    | none => none)

/-- Lines 88–92: on a `RE_LAST4` match, the selected group (possibly
`None`) together with the 0.95 confidence that is recorded whenever the
pattern matches. -/
def last4Block (text : String) : Option (Option String × ℚ) :=
  match reSearch reLast4M text with
  | none => none
  | some gs => some (last4OfGroups [gs.1, gs.2], (19 : ℚ) / 20)

/-- Lines 94–105, parameterized by the normalizer so that the `except`
branch is represented: `norm` stands for `parse_dates`, whose failure
(exception) is an `Except.error`.  `m.groups()` is
`(date1, date1, date2, date2)` (see `reSPM`), filtered to the non-empty
digit-containing ones; with at least two of them, the first two are
normalized (confidence 0.9); an exception degrades to the raw matched span
with confidence 0.6; with fewer than two the field stays unset. -/
def statementPeriodBlockG (norm : String → Except Unit String)
    (text : String) : Option (SPVal × ℚ) :=
  match reSearch reSPM text with
  | none => none
  | some x =>
    match x with
    | (g0, d1, d2) =>
      let groups := ([some d1, some d1, some d2, some d2].filterMap id).filter
        (fun g => g ≠ "" && hasDigit g)
      if 2 ≤ groups.length then
        match norm (groups.getD 0 ""), norm (groups.getD 1 "") with
        | Except.ok s, Except.ok e => some (SPVal.period s e, (9 : ℚ) / 10)
        | _, _ => some (SPVal.raw g0, (6 : ℚ) / 10)
      else none

/-- The concrete statement-period block: `parse_dates` never raises (its
`try/except` returns the stripped input instead), so the normalizer always
succeeds. -/
def statementPeriodBlock (text : String) : Option (SPVal × ℚ) :=
  statementPeriodBlockG (fun s => Except.ok (parse_dates s)) text

/-- Lines 107–112: first `RE_DUE_DATE` match; its digit-containing capture
(the date group) is normalized, confidence 0.95. -/
def dueDateBlock (text : String) : Option (String × ℚ) :=
  match reSearch reDueDateM text with
  | none => none
  | some d =>
    let groups := ([some d].filterMap id).filter
      (fun g => g ≠ "" && hasDigit g)
    match groups.head? with
    | none => none
    | some g => some (parse_dates g, (19 : ℚ) / 20)

/-- `amt.replace(',', '').replace('(', '-').replace(')', '')`. -/
def balanceClean (s : String) : String :=
  String.mk (((s.data.filter (fun a => a ≠ ',')).map
    (fun a => if a = '(' then '-' else a)).filter (fun a => a ≠ ')'))

/-- Lines 114–124: first `RE_TOTAL_BAL` match; its single capture group is
used when non-empty and digit-containing, cleaned, confidence 0.95;
otherwise nothing is set. -/
def totalBalanceBlock (text : String) : Option (String × ℚ) :=
  match reSearch reTotalBalM text with
  | none => none
  | some g =>
    if g ≠ "" && hasDigit g then some (balanceClean g, (19 : ℚ) / 20)
    else none

/-- `extract_fields_from_text` (lines 79–126).  The `confidence` entries
are inserted in the order the five blocks run. -/
def extract_fields_from_text (text : String) : Extracted :=
  let ct := cardTypeBlock text
  let l4 := last4Block text
  let sp := statementPeriodBlock text
  let dd := dueDateBlock text
  let tb := totalBalanceBlock text
  { card_type := ct.map Prod.fst
    last4 := l4.bind Prod.fst
    statement_period := sp.map Prod.fst
    due_date := dd.map Prod.fst
    total_balance := tb.map Prod.fst
    confidence :=
      (ct.map (fun x => ("card_type", x.2))).toList ++
      (l4.map (fun x => ("last4", x.2))).toList ++
      (sp.map (fun x => ("statement_period", x.2))).toList ++
      (dd.map (fun x => ("due_date", x.2))).toList ++
      (tb.map (fun x => ("total_balance", x.2))).toList }

/-- A JSON-like view of a field value of the returned dict: Python `None`,
a string, or the `{"start": …, "end": …}` dict. -/
inductive Value where
  | null
  | str (s : String)
  | range (startDate endDate : String)
deriving Repr, DecidableEq

def optVal : Option String → Value
  | none => Value.null
  | some s => Value.str s

def spToValue : Option SPVal → Value
  | none => Value.null
  | some (SPVal.period a b) => Value.range a b
  | some (SPVal.raw s) => Value.str s

/-- The five field entries of the returned dict, in the order of the dict
literal on line 80.  The Python dict always carries these five keys (plus
`confidence`); a field that was never assigned keeps the initial `None`. -/
def Extracted.fieldEntries (e : Extracted) : List (String × Value) :=
  [("card_type", optVal e.card_type),
   ("last4", optVal e.last4),
   ("statement_period", spToValue e.statement_period),
   ("due_date", optVal e.due_date),
   ("total_balance", optVal e.total_balance)]

def fieldNames : List String :=
  ["card_type", "last4", "statement_period", "due_date", "total_balance"]

/-! ### The table normalizer (`extract_transactions_tables`, lines 58–77)

The collaborator (`pdfplumber`) delivers, per page, a page number and a
list of grids; a grid cell is `Optional[str]` (`Option String`).  Per-page
extraction failures are already recovered to an empty grid list by the
`try/except` in the source. -/

structure PyPage where
  page_number : Nat
  tables : List (List (List (Option String)))
deriving Repr, DecidableEq

/-- Line 73, key part:
`header[i] if i < len(header) and header[i] else f"col{i}"` — Python
truthiness makes both a missing (`None`) and an empty header cell fall back
to the synthetic positional label. -/
def headerLabel (header : List (Option String)) (i : Nat) : String :=
  match header.get? i with
  | some (some s) => if s = "" then "col" ++ toString i else s
  | _ => "col" ++ toString i

/-- Line 73, value part: `row[i] if i < len(row) else ""`. -/
def cellAt (row : List (Option String)) (i : Nat) : Option String :=
  match row.get? i with
  | some c => c
  | none => some ""

/-- Python-dict insertion: overwrite the value in place if the key exists,
else append. -/
def dictInsert (m : List (String × α)) (k : String) (v : α) :
    List (String × α) :=
  if m.any (fun kv => kv.1 = k) then
    m.map (fun kv => if kv.1 = k then (kv.1, v) else kv)
  else m ++ [(k, v)]

/-- Line 73: the dict comprehension
`{(header[i] … else f"col{i}"): (row[i] if i < len(row) else "") for i in range(max(len(header), len(row)))}`. -/
def rowMapping (header row : List (Option String)) :
    List (String × Option String) :=
  (List.range (max header.length row.length)).foldl
    (fun m i => dictInsert m (headerLabel header i) (cellAt row i)) []

structure TableOut where
  page : Nat
  rows : List (List (String × Option String))
deriving Repr, DecidableEq

/-- `extract_transactions_tables` (lines 58–77): per page, per grid — skip
empty grids, map each data row (`t[1:]`) through `rowMapping` against the
header (`t[0]`), and append the table only if it produced at least one
record. -/
def extract_transactions_tables (pages : List PyPage) : List TableOut :=
  pages.foldl
    (fun res p =>
      p.tables.foldl
        (fun res t =>
          match t with
          | [] => res
          | header :: rows =>
            let df_rows := rows.map (rowMapping header)
            if df_rows ≠ [] then res ++ [⟨p.page_number, df_rows⟩] else res)
        res)
    []

/-! ### The statement assembler (`parse_statement`, lines 128–144)

The collaborators are abstracted as inputs: the per-page texts of the
primary backend (page-level failures already recovered to `""` by
`text_from_pdf`), the `OCR_AVAILABLE` flag, the per-page OCR texts, and the
page structure used for tables.  A raised Python exception is
`Except.error`. -/

def joinNl (pages : List String) : String := String.intercalate "\n" pages

/-- `text_from_pdf` (lines 24–33): concatenate the page texts with
newlines. -/
def text_from_pdf (pageTexts : List String) : String := joinNl pageTexts

/-- `ocr_pdf_text` (lines 35–42): raise `RuntimeError` when the OCR
libraries are unavailable, else recognize and join all pages. -/
def ocr_pdf_text (ocrAvailable : Bool) (ocrTexts : List String) :
    Except String String :=
  if !ocrAvailable then
    Except.error "OCR libs not installed (pdf2image/pytesseract)."
  else Except.ok (joinNl ocrTexts)

structure Statement where
  source_file : String
  extracted : Extracted
  transactions_tables : List TableOut
  raw_text_snippet : String
deriving Repr, DecidableEq

def pyTake (n : Nat) (s : String) : String := String.mk (s.data.take n)

/-- `parse_statement` (lines 128–144).  The OCR fallback runs only when the
primary text is whitespace-only AND the caller kept the fallback enabled
AND `OCR_AVAILABLE` is true; table extraction always reads the original
document structure. -/
def parse_statement (pageTexts : List String) (pages : List PyPage)
    (path : String) (ocrAvailable : Bool) (ocrTexts : List String)
    (use_ocr_fallback : Bool) : Except String Statement := do
  let text := text_from_pdf pageTexts
  let text ←
    if pyStrip text = "" && use_ocr_fallback && ocrAvailable then
      ocr_pdf_text ocrAvailable ocrTexts
    else Except.ok text
  let core := extract_fields_from_text text
  let transactions := extract_transactions_tables pages
  Except.ok
    { source_file := path
      extracted := core
      transactions_tables := transactions
      raw_text_snippet := pyTake 2000 text }

/-! ### Spec-side definitions used in theorem statements -/

def nonWordO (o : Option Char) : Bool := !(isWordO o)

/-- Spec §4.1, transcribed: `w` occurs in `text` as a whole word,
case-insensitively — at some position the next `|w|` characters case-fold
to `w`, and the characters adjacent to the occurrence, when they exist,
are not word characters. -/
def wholeWordCI (w text : String) : Bool :=
  (List.range (text.data.length + 1)).any (fun i =>
    (((text.data.drop i).take w.data.length).map lowerChar ==
      w.data.map lowerChar) &&
    nonWordO (text.data.take i).getLast? &&
    nonWordO ((text.data.drop i).drop w.data.length).head?)

/-- Keys in first-insertion order with later duplicates dropped (Python
dict key order). -/
def dedupFirst (ks : List String) : List String :=
  ks.foldl (fun acc k => if k ∈ acc then acc else acc ++ [k]) []

/-- The effective column labels of a row of length `rl` under a given
header: header label where present and non-empty, else the positional
synthetic label, for the indices `0 … max(|header|, rl) - 1`. -/
def effLabels (header : List (Option String)) (rl : Nat) : List String :=
  (List.range (max header.length rl)).map (headerLabel header)

/-! ### Support lemmas about the matcher -/

theorem bind_def {α β : Type} (m : P α) (f : α → P β) :
    (m >>= f) = P.bind m f := rfl

theorem pure_def {α : Type} (a : α) : (pure a : P α) = P.pure a := rfl

theorem mem_pbind {α β : Type} {m : P α} {f : α → P β} {p : Pos}
    {x : β × Pos} : x ∈ P.bind m f p ↔ ∃ y ∈ m p, x ∈ f y.1 y.2 := by
  simp [P.bind, List.mem_flatMap]

theorem mem_ppure {α : Type} {a : α} {p : Pos} {x : α × Pos} :
    x ∈ P.pure a p ↔ x = (a, p) := by
  simp [P.pure]

theorem mem_palt {α : Type} {ms : List (P α)} {p : Pos} {x : α × Pos} :
    x ∈ palt ms p ↔ ∃ m ∈ ms, x ∈ m p := by
  simp [palt, List.mem_flatMap]

/-- Transfer a property of all per-position outcomes to the result of a
search. -/
theorem searchAll_prop {α : Type} (m : P α) (Q : α → Prop)
    (h : ∀ p x, x ∈ m p → Q x.1) :
    ∀ (pr : Option Char) (cs : List Char) (a : α),
      searchAll m pr cs = some a → Q a := by
  intro pr cs
  induction cs generalizing pr with
  | nil =>
    intro a ha
    simp only [searchAll] at ha
    cases hm : m ⟨pr, []⟩ with
    | nil => rw [hm] at ha; simp at ha
    | cons y ys =>
      rw [hm] at ha
      simp only [List.head?_cons, Option.map_some', Option.some.injEq] at ha
      subst ha
      exact h _ y (hm ▸ List.mem_cons_self y ys)
  | cons c cs ih =>
    intro a ha
    simp only [searchAll] at ha
    cases hm : m ⟨pr, c :: cs⟩ with
    | nil =>
      rw [hm] at ha
      simp only [List.head?_nil] at ha
      exact ih (some c) a ha
    | cons y ys =>
      rw [hm] at ha
      simp only [List.head?_cons] at ha
      cases ha
      exact h _ y (hm ▸ List.mem_cons_self y ys)

theorem reSearch_prop {α : Type} (m : P α) (Q : α → Prop)
    (h : ∀ p x, x ∈ m p → Q x.1) (s : String) (a : α)
    (ha : reSearch m s = some a) : Q a :=
  searchAll_prop m Q h none s.data a ha

theorem leadCount_le_length (f : Char → Bool) (l : List Char) :
    leadCount f l ≤ l.length := by
  induction l with
  | nil => simp [leadCount]
  | cons c cs ih =>
    by_cases h : f c
    · simp only [leadCount, h, if_true, List.length_cons]
      omega
    · simp [leadCount, h]

theorem take_all_of_le_leadCount {f : Char → Bool} {l : List Char} {n : Nat}
    (h : n ≤ leadCount f l) : (l.take n).all f = true := by
  induction l generalizing n with
  | nil => simp
  | cons c cs ih =>
    cases n with
    | zero => simp
    | succ k =>
      by_cases hc : f c
      · simp only [leadCount, hc, if_true] at h
        simp only [List.take_succ_cons, List.all_cons, hc, Bool.true_and]
        exact ih (by omega)
      · simp [leadCount, hc] at h

theorem spanStr_consume {p : Pos} {j : Nat} (h : j ≤ p.rest.length) :
    spanStr p (p.consume j) = String.mk (p.rest.take j) := by
  unfold spanStr Pos.consume
  simp only [List.length_drop]
  have hj : p.rest.length - (p.rest.length - j) = j := by omega
  rw [hj]

/-- An exact digit run `\d{n}` captures an `n`-character all-digit span. -/
theorem mem_capture_digitsExact {n : Nat} {p : Pos} {x : String × Pos}
    (hx : x ∈ capture (runs Char.isDigit n (some n)) p) :
    x.1.length = n ∧ x.1.data.all Char.isDigit = true := by
  unfold capture at hx
  simp only [List.mem_map] at hx
  obtain ⟨y, hy, hxy⟩ := hx
  unfold runs at hy
  simp only [Option.map_some', Option.getD_some] at hy
  by_cases hle : n ≤ min (leadCount Char.isDigit p.rest) n
  · rw [if_pos hle] at hy
    have hk : n ≤ leadCount Char.isDigit p.rest := by omega
    have hmn : min (leadCount Char.isDigit p.rest) n = n := by omega
    rw [hmn] at hy
    simp only [Nat.add_sub_cancel_left, List.mem_map, List.mem_range] at hy
    obtain ⟨t, ht, hy⟩ := hy
    have ht0 : t = 0 := by omega
    subst ht0
    subst hy
    have hlen : n ≤ p.rest.length :=
      le_trans hk (leadCount_le_length _ _)
    subst hxy
    constructor
    · show (spanStr p (p.consume (n - 0))).length = n
      rw [Nat.sub_zero, spanStr_consume hlen]
      show (p.rest.take n).length = n
      simp [List.length_take]
      omega
    · show (spanStr p (p.consume (n - 0))).data.all Char.isDigit = true
      rw [Nat.sub_zero, spanStr_consume hlen]
      exact take_all_of_le_leadCount hk
  · rw [if_neg hle] at hy
    simp at hy

/-- Every outcome of `RE_LAST4` has exactly one participating group, a
4-digit string (each alternative contains the mandatory `(\d{4})`). -/
theorem reLast4M_shape {p : Pos} {x : (Option String × Option String) × Pos}
    (hx : x ∈ reLast4M p) :
    ∃ d : String, (x.1 = (some d, none) ∨ x.1 = (none, some d)) ∧
      d.length = 4 ∧ d.data.all Char.isDigit = true := by
  unfold reLast4M at hx
  rw [mem_palt] at hx
  obtain ⟨mm, hmm, hx⟩ := hx
  simp only [List.mem_cons, List.not_mem_nil, or_false] at hmm
  rcases hmm with hmm | hmm
  · subst hmm
    simp only [bind_def, mem_pbind, pure_def, mem_ppure] at hx
    obtain ⟨y1, _, y2, _, y3, _, y4, _, y5, _, yd, hyd, y6, _, hx⟩ := hx
    obtain ⟨hlen, hdig⟩ := mem_capture_digitsExact hyd
    subst hx
    exact ⟨yd.1, Or.inl rfl, hlen, hdig⟩
  · subst hmm
    simp only [bind_def, mem_pbind, pure_def, mem_ppure] at hx
    obtain ⟨y1, _, y2, _, yd, hyd, y6, _, hx⟩ := hx
    obtain ⟨hlen, hdig⟩ := mem_capture_digitsExact hyd
    subst hx
    exact ⟨yd.1, Or.inr rfl, hlen, hdig⟩

/-- On any `RE_LAST4` match the group-selection line finds a 4-digit
group. -/
theorem last4_search_group {text : String} {gs : Option String × Option String}
    (h : reSearch reLast4M text = some gs) :
    ∃ d, last4OfGroups [gs.1, gs.2] = some d ∧ d.length = 4 ∧
      d.data.all Char.isDigit = true := by
  have hq := reSearch_prop reLast4M
    (fun gs => ∃ d : String, (gs = (some d, none) ∨ gs = (none, some d)) ∧
      d.length = 4 ∧ d.data.all Char.isDigit = true)
    (fun p x hx => reLast4M_shape hx) text gs h
  obtain ⟨d, hd, hlen, hdig⟩ := hq
  refine ⟨d, ?_, hlen, hdig⟩
  rcases hd with hd | hd <;> subst hd <;>
    simp only [last4OfGroups, List.findSome?_cons] <;>
    rw [if_pos ⟨hlen, by simpa using hdig⟩]

/-! ### Support lemmas about the field extractor -/

theorem conf_lookups (text : String) :
    ((extract_fields_from_text text).confidence.lookup "card_type" =
      (cardTypeBlock text).map Prod.snd) ∧
    ((extract_fields_from_text text).confidence.lookup "last4" =
      (last4Block text).map Prod.snd) ∧
    ((extract_fields_from_text text).confidence.lookup "statement_period" =
      (statementPeriodBlock text).map Prod.snd) ∧
    ((extract_fields_from_text text).confidence.lookup "due_date" =
      (dueDateBlock text).map Prod.snd) ∧
    ((extract_fields_from_text text).confidence.lookup "total_balance" =
      (totalBalanceBlock text).map Prod.snd) := by
  rcases hct : cardTypeBlock text with _ | ct <;>
  rcases hl4 : last4Block text with _ | l4 <;>
  rcases hsp : statementPeriodBlock text with _ | sp <;>
  rcases hdd : dueDateBlock text with _ | dd <;>
  rcases htb : totalBalanceBlock text with _ | tb <;>
  simp [extract_fields_from_text, hct, hl4, hsp, hdd, htb, List.lookup]

theorem cardTypeBlock_conf {text : String} {v : String × ℚ}
    (h : cardTypeBlock text = some v) : v.2 = 19 / 20 := by
  unfold cardTypeBlock at h
  rw [Option.map_eq_some'] at h
  obtain ⟨ct, _, hv⟩ := h
  rw [← hv]

theorem last4Block_some {text : String} {v : Option String × ℚ}
    (h : last4Block text = some v) :
    v.2 = 19 / 20 ∧ ∃ d, v.1 = some d := by
  unfold last4Block at h
  cases hs : reSearch reLast4M text with
  | none => rw [hs] at h; simp at h
  | some gs =>
    rw [hs] at h
    simp only [Option.some.injEq] at h
    obtain ⟨d, hd, _, _⟩ := last4_search_group hs
    subst h
    exact ⟨rfl, d, hd⟩

theorem spBlock_conf {text : String} {v : SPVal × ℚ}
    (h : statementPeriodBlock text = some v) : v.2 = 9 / 10 := by
  unfold statementPeriodBlock statementPeriodBlockG at h
  cases hs : reSearch reSPM text with
  | none => rw [hs] at h; simp at h
  | some x =>
    rw [hs] at h
    obtain ⟨g0, d1, d2⟩ := x
    dsimp only at h
    by_cases hlen : 2 ≤ (([some d1, some d1, some d2, some d2].filterMap id).filter
        (fun g => g ≠ "" && hasDigit g)).length
    · rw [if_pos hlen] at h
      simp only [Option.some.injEq] at h
      subst h
      rfl
    · rw [if_neg hlen] at h
      simp at h

theorem dueDateBlock_conf {text : String} {v : String × ℚ}
    (h : dueDateBlock text = some v) : v.2 = 19 / 20 := by
  unfold dueDateBlock at h
  cases hs : reSearch reDueDateM text with
  | none => rw [hs] at h; simp at h
  | some d =>
    rw [hs] at h
    dsimp only at h
    cases hh : (([some d].filterMap id).filter
        (fun g => g ≠ "" && hasDigit g)).head? with
    | none => rw [hh] at h; simp at h
    | some g =>
      rw [hh] at h
      simp only [Option.some.injEq] at h
      subst h
      rfl

theorem totalBalanceBlock_conf {text : String} {v : String × ℚ}
    (h : totalBalanceBlock text = some v) : v.2 = 19 / 20 := by
  unfold totalBalanceBlock at h
  cases hs : reSearch reTotalBalM text with
  | none => rw [hs] at h; simp at h
  | some g =>
    rw [hs] at h
    dsimp only at h
    by_cases hc : (g ≠ "" && hasDigit g) = true
    · rw [if_pos hc] at h
      simp only [Option.some.injEq] at h
      subst h
      rfl
    · rw [if_neg hc] at h
      simp at h

theorem mem_optEntry {β : Type} {o : Option (β × ℚ)} {name : String}
    {x : String × ℚ}
    (hx : x ∈ (o.map (fun v => (name, v.2))).toList) :
    ∃ v, o = some v ∧ x.2 = v.2 := by
  cases o with
  | none => simp at hx
  | some v =>
    simp only [Option.map_some', Option.toList_some, List.mem_singleton] at hx
    exact ⟨v, rfl, by rw [hx]⟩

theorem extract_card_type (text : String) :
    (extract_fields_from_text text).card_type =
      (cardTypeBlock text).map Prod.fst := rfl

theorem extract_last4 (text : String) :
    (extract_fields_from_text text).last4 =
      (last4Block text).bind Prod.fst := rfl

theorem extract_sp (text : String) :
    (extract_fields_from_text text).statement_period =
      (statementPeriodBlock text).map Prod.fst := rfl

theorem extract_due (text : String) :
    (extract_fields_from_text text).due_date =
      (dueDateBlock text).map Prod.fst := rfl

theorem extract_tb (text : String) :
    (extract_fields_from_text text).total_balance =
      (totalBalanceBlock text).map Prod.fst := rfl

theorem extract_conf (text : String) :
    (extract_fields_from_text text).confidence =
      ((cardTypeBlock text).map (fun v => ("card_type", v.2))).toList ++
      ((last4Block text).map (fun v => ("last4", v.2))).toList ++
      ((statementPeriodBlock text).map
        (fun v => ("statement_period", v.2))).toList ++
      ((dueDateBlock text).map (fun v => ("due_date", v.2))).toList ++
      ((totalBalanceBlock text).map
        (fun v => ("total_balance", v.2))).toList := rfl

/-- Core per-field invariant: the value slot holds `None` exactly when the
confidence map has no entry for the field. -/
theorem value_null_iff_conf_none (text : String) (f : String)
    (hf : f ∈ fieldNames) :
    ((extract_fields_from_text text).fieldEntries.lookup f =
        some Value.null ↔
      (extract_fields_from_text text).confidence.lookup f = none) := by
  obtain ⟨hc1, hc2, hc3, hc4, hc5⟩ := conf_lookups text
  fin_cases hf
  · rw [hc1]
    rcases h : cardTypeBlock text with _ | v <;>
      simp [Extracted.fieldEntries, List.lookup, extract_card_type, h, optVal]
  · rw [hc2]
    rcases h : last4Block text with _ | v
    · simp [Extracted.fieldEntries, List.lookup, extract_last4, h, optVal]
    · obtain ⟨_, d, hd⟩ := last4Block_some h
      simp [Extracted.fieldEntries, List.lookup, extract_last4, h, hd, optVal]
  · rw [hc3]
    rcases h : statementPeriodBlock text with _ | v
    · simp [Extracted.fieldEntries, List.lookup, extract_sp, h, spToValue]
    · obtain ⟨sv, q⟩ := v
      cases sv <;>
        simp [Extracted.fieldEntries, List.lookup, extract_sp, h, spToValue]
  · rw [hc4]
    rcases h : dueDateBlock text with _ | v <;>
      simp [Extracted.fieldEntries, List.lookup, extract_due, h, optVal]
  · rw [hc5]
    rcases h : totalBalanceBlock text with _ | v <;>
      simp [Extracted.fieldEntries, List.lookup, extract_tb, h, optVal]

/-! ### Support lemmas for the card-vocabulary search: the matcher agrees
with the spec's declarative "whole word, case-insensitive" condition -/

theorem isWordChar_of_lower (c : Char)
    (h : isWordChar (lowerChar c) = true) : isWordChar c = true := by
  unfold lowerChar at h
  by_cases hc : ('A' ≤ c && c ≤ 'Z') = true
  · simp [isWordChar, hc]
  · rw [if_neg hc] at h
    exact h

theorem getLast?_cons_match (c : Char) (t : List Char) :
    (c :: t).getLast? = match t.getLast? with
      | some d => some d
      | none => some c := by
  cases t with
  | nil => rfl
  | cons d ds =>
    rw [List.getLast?_cons_cons]
    have hs : (d :: ds).getLast?.isSome = true := by
      rw [List.getLast?_isSome]
      simp
    obtain ⟨e, he⟩ := Option.isSome_iff_exists.mp hs
    rw [he]

theorem mem_positions :
    ∀ (l : List Char) (pr : Option Char) (p : Pos),
      p ∈ positions pr l ↔
        ∃ i, i ≤ l.length ∧ p.rest = l.drop i ∧
          p.prev = (match (l.take i).getLast? with
            | some c => some c
            | none => pr) := by
  intro l
  induction l with
  | nil =>
    intro pr p
    simp only [positions, List.mem_singleton]
    constructor
    · intro h
      subst h
      exact ⟨0, by simp⟩
    · rintro ⟨i, hi, hrest, hprev⟩
      simp only [List.drop_nil] at hrest
      simp only [List.take_nil, List.getLast?_nil] at hprev
      cases p
      simp_all
  | cons c cs ih =>
    intro pr p
    simp only [positions, List.mem_cons, ih]
    constructor
    · rintro (h | ⟨i, hi, hrest, hprev⟩)
      · subst h
        exact ⟨0, by simp⟩
      · refine ⟨i + 1, by simpa using hi, by simpa using hrest, ?_⟩
        rw [List.take_succ_cons, getLast?_cons_match]
        cases hgl : (cs.take i).getLast? with
        | none => rw [hgl] at hprev; exact hprev
        | some d => rw [hgl] at hprev; exact hprev
    · rintro ⟨i, hi, hrest, hprev⟩
      cases i with
      | zero =>
        left
        simp only [List.drop_zero] at hrest
        simp only [List.take_zero, List.getLast?_nil] at hprev
        cases p
        simp_all
      | succ j =>
        right
        refine ⟨j, by simpa using hi, by simpa using hrest, ?_⟩
        rw [List.take_succ_cons, getLast?_cons_match] at hprev
        cases hgl : (cs.take j).getLast? with
        | none => rw [hgl] at hprev; exact hprev
        | some d => rw [hgl] at hprev; exact hprev

theorem searchAll_isSome_iff {α : Type} (m : P α) :
    ∀ (pr : Option Char) (cs : List Char),
      (searchAll m pr cs).isSome = true ↔
        ∃ p ∈ positions pr cs, m p ≠ [] := by
  intro pr cs
  induction cs generalizing pr with
  | nil =>
    simp only [searchAll, positions]
    constructor
    · intro h
      refine ⟨⟨pr, []⟩, List.mem_singleton.mpr rfl, ?_⟩
      intro hnil
      rw [hnil] at h
      simp at h
    · rintro ⟨p, hp, hnil⟩
      simp only [List.mem_singleton] at hp
      subst hp
      cases hm : m ⟨pr, []⟩ with
      | nil => exact absurd hm hnil
      | cons y ys => simp [hm]
  | cons c cs ih =>
    cases hm : m ⟨pr, c :: cs⟩ with
    | nil =>
      have hred : searchAll m pr (c :: cs) = searchAll m (some c) cs := by
        have : searchAll m pr (c :: cs) =
            match (m ⟨pr, c :: cs⟩).head? with
            | some x => some x.1
            | none => searchAll m (some c) cs := rfl
        rw [this, hm]
        rfl
      rw [hred, ih]
      constructor
      · rintro ⟨p, hp, hnil⟩
        exact ⟨p, by simp [positions, hp], hnil⟩
      · rintro ⟨p, hp, hnil⟩
        simp only [positions, List.mem_cons] at hp
        rcases hp with hp | hp
        · subst hp
          exact absurd hm hnil
        · exact ⟨p, hp, hnil⟩
    | cons y ys =>
      have hred : searchAll m pr (c :: cs) = some y.1 := by
        have : searchAll m pr (c :: cs) =
            match (m ⟨pr, c :: cs⟩).head? with
            | some x => some x.1
            | none => searchAll m (some c) cs := rfl
        rw [this, hm]
        rfl
      rw [hred]
      simp only [Option.isSome_some, true_iff]
      exact ⟨⟨pr, c :: cs⟩, by simp [positions], by rw [hm]; simp⟩

theorem wwM_ne_nil_iff (w : String) (p : Pos) :
    wwM w p ≠ [] ↔
      ((isWordO p.prev != isWordO p.rest.head?) = true ∧
       (p.rest.take w.data.length).map lowerChar =
         w.data.map lowerChar ∧
       (isWordO (p.consume w.data.length).prev !=
         isWordO (p.consume w.data.length).rest.head?) = true) := by
  have hd : wwM w p =
      P.bind boundaryB
        (fun _ => P.bind (litCI w) (fun _ => boundaryB)) p := rfl
  by_cases h1 : (isWordO p.prev != isWordO p.rest.head?) = true <;>
  by_cases h2 : (p.rest.take w.data.length).map lowerChar =
      w.data.map lowerChar <;>
  by_cases h3 : (isWordO (p.consume w.data.length).prev !=
      isWordO (p.consume w.data.length).rest.head?) = true <;>
  simp [hd, P.bind, boundaryB, pguard, litCI, h1, h2, h3]

theorem ci_head_last {w0 : Char} {ws : List Char} {l : List Char}
    (h2 : (l.take (w0 :: ws).length).map lowerChar =
      (w0 :: ws).map lowerChar) :
    ∃ c0 tl, l = c0 :: tl ∧ lowerChar c0 = lowerChar w0 ∧
      ∃ cl, (l.take (w0 :: ws).length).getLast? = some cl ∧
        lowerChar cl =
          lowerChar ((w0 :: ws).getLast (List.cons_ne_nil w0 ws)) := by
  cases l with
  | nil => simp at h2
  | cons c0 tl =>
    have hgl := congrArg List.getLast? h2
    rw [List.getLast?_map, List.getLast?_map] at hgl
    simp only [List.length_cons, List.take_succ_cons, List.map_cons,
      List.cons.injEq] at h2
    obtain ⟨hc0, _⟩ := h2
    refine ⟨c0, tl, rfl, hc0, ?_⟩
    have hs : (c0 :: tl.take ws.length).getLast?.isSome = true := by
      rw [List.getLast?_isSome]
      simp
    obtain ⟨cl, hcl⟩ := Option.isSome_iff_exists.mp hs
    have hcl2 : ((c0 :: tl).take (w0 :: ws).length).getLast? = some cl := by
      simpa using hcl
    refine ⟨cl, hcl2, ?_⟩
    rw [hcl2, List.getLast?_eq_getLast_of_ne_nil (List.cons_ne_nil w0 ws)]
      at hgl
    simpa using hgl

/-- The matcher's per-position condition coincides with the spec's
declarative whole-word condition, provided the word starts and ends with
word characters (true of every vocabulary entry). -/
theorem ww_cond_iff (w : String) (w0 : Char) (ws : List Char)
    (hwdata : w.data = w0 :: ws)
    (hw2 : isWordChar (lowerChar w0) = true)
    (hw3 : isWordChar (lowerChar ((w0 :: ws).getLast
      (List.cons_ne_nil w0 ws))) = true)
    (text : List Char) (i : Nat) :
    wwM w ⟨(text.take i).getLast?, text.drop i⟩ ≠ [] ↔
      (((text.drop i).take w.data.length).map lowerChar =
        w.data.map lowerChar ∧
       nonWordO ((text.take i).getLast?) = true ∧
       nonWordO ((text.drop i).drop w.data.length).head? = true) := by
  rw [wwM_ne_nil_iff]
  dsimp only [Pos.consume]
  have key : ((text.drop i).take w.data.length).map lowerChar =
      w.data.map lowerChar →
      isWordO ((text.drop i).head?) = true ∧
      isWordO (match ((text.drop i).take w.data.length).getLast? with
        | some c => some c
        | none => (text.take i).getLast?) = true := by
    intro h2
    rw [hwdata] at h2
    obtain ⟨c0, tl, hdi, hc0, cl, hcl, hcll⟩ := ci_head_last h2
    constructor
    · rw [hdi]
      show isWordChar c0 = true
      apply isWordChar_of_lower
      rw [hc0]
      exact hw2
    · rw [show ((text.drop i).take w.data.length).getLast? = some cl by
        rw [hwdata]; exact hcl]
      show isWordChar cl = true
      apply isWordChar_of_lower
      rw [hcll]
      exact hw3
  constructor
  · rintro ⟨h1, h2, h3⟩
    obtain ⟨f1, f2⟩ := key h2
    refine ⟨h2, ?_, ?_⟩
    · rw [f1] at h1
      unfold nonWordO
      cases hgl : isWordO ((text.take i).getLast?)
      · rfl
      · rw [hgl] at h1
        simp at h1
    · rw [f2] at h3
      unfold nonWordO
      cases hah : isWordO (((text.drop i).drop w.data.length).head?)
      · rfl
      · rw [hah] at h3
        simp at h3
  · rintro ⟨h2, hb1, hb2⟩
    obtain ⟨f1, f2⟩ := key h2
    refine ⟨?_, h2, ?_⟩
    · rw [f1]
      unfold nonWordO at hb1
      cases hgl : isWordO ((text.take i).getLast?)
      · rfl
      · rw [hgl] at hb1
        simp at hb1
    · rw [f2]
      unfold nonWordO at hb2
      cases hah : isWordO (((text.drop i).drop w.data.length).head?)
      · rfl
      · rw [hah] at hb2
        simp at hb2

/-- The imperative whole-word search agrees with the spec's declarative
condition for words that start and end with word characters. -/
theorem wwSearch_eq_wholeWordCI (w : String) (w0 : Char) (ws : List Char)
    (hwdata : w.data = w0 :: ws)
    (hw2 : isWordChar (lowerChar w0) = true)
    (hw3 : isWordChar (lowerChar ((w0 :: ws).getLast
      (List.cons_ne_nil w0 ws))) = true)
    (text : String) :
    wwSearch w text = wholeWordCI w text := by
  rw [Bool.eq_iff_iff]
  have hL : wwSearch w text = true ↔
      ∃ p ∈ positions none text.data, wwM w p ≠ [] := by
    rw [show wwSearch w text =
      (searchAll (wwM w) none text.data).isSome from rfl]
    exact searchAll_isSome_iff (wwM w) none text.data
  have hR : wholeWordCI w text = true ↔
      ∃ i, i < text.data.length + 1 ∧
        (((text.data.drop i).take w.data.length).map lowerChar =
          w.data.map lowerChar ∧
         nonWordO ((text.data.take i).getLast?) = true ∧
         nonWordO ((text.data.drop i).drop w.data.length).head? =
           true) := by
    unfold wholeWordCI
    rw [List.any_eq_true]
    constructor
    · rintro ⟨i, hi, hcond⟩
      rw [List.mem_range] at hi
      simp only [Bool.and_eq_true, beq_iff_eq] at hcond
      exact ⟨i, hi, hcond.1.1, hcond.1.2, hcond.2⟩
    · rintro ⟨i, hi, h1, h2, h3⟩
      refine ⟨i, List.mem_range.mpr hi, ?_⟩
      simp only [Bool.and_eq_true, beq_iff_eq]
      exact ⟨⟨h1, h2⟩, h3⟩
  rw [hL, hR]
  constructor
  · rintro ⟨p, hp, hpne⟩
    obtain ⟨i, hi, hrest, hprev⟩ := (mem_positions text.data none p).mp hp
    have hprev2 : p.prev = (text.data.take i).getLast? := by
      rw [hprev]
      cases (text.data.take i).getLast? <;> rfl
    have hp2 : p = ⟨(text.data.take i).getLast?, text.data.drop i⟩ := by
      cases p
      simp_all
    rw [hp2] at hpne
    rw [ww_cond_iff w w0 ws hwdata hw2 hw3 text.data i] at hpne
    exact ⟨i, by omega, hpne⟩
  · rintro ⟨i, hi, hcond⟩
    refine ⟨⟨(text.data.take i).getLast?, text.data.drop i⟩, ?_, ?_⟩
    · apply (mem_positions text.data none _).mpr
      refine ⟨i, by omega, rfl, ?_⟩
      cases (text.data.take i).getLast? <;> rfl
    · rw [ww_cond_iff w w0 ws hwdata hw2 hw3 text.data i]
      exact hcond

theorem find?_congr_strings {p q : String → Bool} :
    ∀ l : List String, (∀ a ∈ l, p a = q a) → l.find? p = l.find? q := by
  intro l
  induction l with
  | nil => intro _; rfl
  | cons a as ih =>
    intro h
    simp only [List.find?]
    rw [h a (List.mem_cons_self _ _)]
    cases q a
    · exact ih (fun b hb => h b (List.mem_cons_of_mem _ hb))
    · rfl

/-- The code's per-card searches agree with the declarative condition on
every vocabulary entry. -/
theorem card_find_eq (text : String) :
    CARD_TYPES.find? (fun ct => wwSearch ct text) =
      CARD_TYPES.find? (fun ct => wholeWordCI ct text) := by
  apply find?_congr_strings
  intro ct hct
  fin_cases hct
  · exact wwSearch_eq_wholeWordCI "VISA" 'V' ['I', 'S', 'A'] rfl
      (by decide) (by decide) text
  · exact wwSearch_eq_wholeWordCI "MASTERCARD" 'M'
      ['A', 'S', 'T', 'E', 'R', 'C', 'A', 'R', 'D'] rfl
      (by decide) (by decide) text
  · exact wwSearch_eq_wholeWordCI "AMEX" 'A' ['M', 'E', 'X'] rfl
      (by decide) (by decide) text
  · exact wwSearch_eq_wholeWordCI "AMERICAN EXPRESS" 'A'
      ['M', 'E', 'R', 'I', 'C', 'A', 'N', ' ', 'E', 'X', 'P', 'R', 'E',
       'S', 'S'] rfl (by decide) (by decide) text
  · exact wwSearch_eq_wholeWordCI "DISCOVER" 'D'
      ['I', 'S', 'C', 'O', 'V', 'E', 'R'] rfl (by decide) (by decide) text

/-- C9: for every text, `card_type` equals the uppercased first vocabulary
entry — first in `CARD_TYPES` list order, the tie-break being list order
and not position in the text — that occurs in the text as a whole word,
case-insensitively, and the confidence map then holds 0.95 for it;
`card_type` (and its confidence entry) is absent exactly when no
vocabulary entry occurs. -/
theorem c9_card_vocabulary (text : String) :
    (extract_fields_from_text text).card_type =
      (CARD_TYPES.find? (fun ct => wholeWordCI ct text)).map pyUpper ∧
    (extract_fields_from_text text).confidence.lookup "card_type" =
      (CARD_TYPES.find? (fun ct => wholeWordCI ct text)).map
        (fun _ => (19 : ℚ) / 20) := by
  constructor
  · rw [extract_card_type]
    unfold cardTypeBlock
    rw [card_find_eq]
    cases CARD_TYPES.find? (fun ct => wholeWordCI ct text) <;> rfl
  · rw [(conf_lookups text).1]
    unfold cardTypeBlock
    rw [card_find_eq]
    cases CARD_TYPES.find? (fun ct => wholeWordCI ct text) <;> rfl


/-- C10: for every input text and each of the five field names, the output
of `extract_fields_from_text` has a non-None value for that field iff the
nested confidence map contains an entry for the field; and every
confidence value emitted lies in {0.6, 0.9, 0.95}, hence in [0, 1]. -/
theorem c10_value_iff_confidence (text : String) :
    (∀ f ∈ fieldNames,
      ((extract_fields_from_text text).fieldEntries.lookup f ≠
          some Value.null ↔
        ((extract_fields_from_text text).confidence.lookup f).isSome)) ∧
    (∀ x ∈ (extract_fields_from_text text).confidence,
      (x.2 = 19 / 20 ∨ x.2 = 9 / 10 ∨ x.2 = 3 / 5) ∧ 0 ≤ x.2 ∧ x.2 ≤ 1) := by
  constructor
  · intro f hf
    exact (not_congr (value_null_iff_conf_none text f hf)).trans
      Option.isSome_iff_ne_none.symm
  · intro x hx
    rw [extract_conf] at hx
    simp only [List.mem_append] at hx
    rcases hx with ((((hx | hx) | hx) | hx) | hx)
    · obtain ⟨v, hv, he⟩ := mem_optEntry hx
      rw [he, cardTypeBlock_conf hv]
      norm_num
    · obtain ⟨v, hv, he⟩ := mem_optEntry hx
      rw [he, (last4Block_some hv).1]
      norm_num
    · obtain ⟨v, hv, he⟩ := mem_optEntry hx
      rw [he, spBlock_conf hv]
      norm_num
    · obtain ⟨v, hv, he⟩ := mem_optEntry hx
      rw [he, dueDateBlock_conf hv]
      norm_num
    · obtain ⟨v, hv, he⟩ := mem_optEntry hx
      rw [he, totalBalanceBlock_conf hv]
      norm_num

/-- Witness for C10 at concrete inputs. -/
theorem c10_value_iff_confidence_witness :
    ("card_type" ∈ fieldNames ∧
      ((extract_fields_from_text "my visa card").fieldEntries.lookup
          "card_type" ≠ some Value.null ↔
        ((extract_fields_from_text "my visa card").confidence.lookup
          "card_type").isSome)) ∧
    (("card_type", (19 : ℚ) / 20) ∈
        (extract_fields_from_text "my visa card").confidence ∧
      ((("card_type", (19 : ℚ) / 20).2 = 19 / 20 ∨
          ("card_type", (19 : ℚ) / 20).2 = 9 / 10 ∨
          ("card_type", (19 : ℚ) / 20).2 = 3 / 5) ∧
        0 ≤ ("card_type", (19 : ℚ) / 20).2 ∧
        ("card_type", (19 : ℚ) / 20).2 ≤ 1)) := by
  have hconf : (extract_fields_from_text "my visa card").confidence =
      [("card_type", (19 : ℚ) / 20)] := rfl
  refine ⟨⟨by decide,
    (c10_value_iff_confidence "my visa card").1 "card_type" (by decide)⟩,
    ⟨?_, (c10_value_iff_confidence "my visa card").2
      ("card_type", 19 / 20) ?_⟩⟩ <;>
  · rw [hconf]
    exact List.Mem.head _

/-- C1 counterexample: already on empty text (no recognizable fields) the
extracted-field map is not empty — it holds an explicit None placeholder
for `card_type` (and likewise for the other four fields), contradicting
"omitted from the extracted-field map … no null/None placeholder entry"
and "both maps are empty". -/
theorem c1_counterexample :
    (extract_fields_from_text "").fieldEntries.lookup "card_type" =
      some Value.null ∧
    (extract_fields_from_text "").fieldEntries ≠ [] :=
  ⟨by decide, by decide⟩

/-- C1 amended: a field not found in the text is present in the
extracted-field map with value None (the five keys are always present) and
is omitted from the confidence map; on text with no recognizable fields
the five values are all None and the confidence map is empty. -/
theorem c1_amended :
    (∀ text : String,
      (extract_fields_from_text text).fieldEntries.map Prod.fst =
        fieldNames ∧
      ∀ f ∈ fieldNames,
        ((extract_fields_from_text text).fieldEntries.lookup f =
            some Value.null ↔
          (extract_fields_from_text text).confidence.lookup f = none)) ∧
    (extract_fields_from_text "").fieldEntries =
      fieldNames.map (fun f => (f, Value.null)) ∧
    (extract_fields_from_text "").confidence = [] :=
  ⟨fun text => ⟨rfl, fun f hf => value_null_iff_conf_none text f hf⟩,
   by decide, by decide⟩

/-- Witness for C1's amended statement at a concrete field and text. -/
theorem c1_amended_witness :
    ((extract_fields_from_text "x").fieldEntries.lookup "last4" =
        some Value.null ↔
      (extract_fields_from_text "x").confidence.lookup "last4" = none) :=
  (c1_amended.1 "x").2 "last4" (by decide)

/-- C2: the code disagrees with both spec examples.  `RE_TOTAL_BAL` places
`\$?` before the whitespace that follows `[:\s]`, so `Balance Due: $…`
(dollar sign preceded by a space) never matches; and the amount class
`[-,\d\.]` cannot consume `(`, so the accounting-negative form
`($50.00)` never matches either.  On both spec inputs `total_balance`
stays unset (with no confidence entry) instead of "1234.56" / "-50.00";
without the space after the colon the amount is found, confirming the
misplaced `\$?` as the cause. -/
theorem c2_balance_examples_fail :
    (extract_fields_from_text "Balance Due: $1,234.56").total_balance =
      none ∧
    (extract_fields_from_text "Balance Due: $1,234.56").confidence.lookup
      "total_balance" = none ∧
    (extract_fields_from_text "Balance Due: ($50.00)").total_balance =
      none ∧
    (extract_fields_from_text "Balance Due: ($50.00)").confidence.lookup
      "total_balance" = none ∧
    (extract_fields_from_text "Balance Due:$1,234.56").total_balance =
      some "1234.56" :=
  ⟨by decide, by decide, by decide, by decide, by decide⟩

/-- C3 counterexample: primary text whitespace-only, fallback enabled by
the caller, image-recognition backend unavailable — the invocation does
NOT fail: the guard `and OCR_AVAILABLE` on line 131 makes the "backend
unavailable" error unreachable from `parse_statement`, which silently
proceeds with the whitespace text. -/
theorem c3_counterexample :
    parse_statement ["  "] [] "s.pdf" false [] true =
      Except.ok
        { source_file := "s.pdf"
          extracted :=
            { card_type := none, last4 := none, statement_period := none,
              due_date := none, total_balance := none, confidence := [] }
          transactions_tables := []
          raw_text_snippet := "  " } ∧
    (parse_statement ["  "] [] "s.pdf" false [] true).isOk = true :=
  ⟨rfl, rfl⟩

/-- C3 amended: when the image-recognition backend is unavailable,
`parse_statement` never fails — the fallback guard checks `OCR_AVAILABLE`,
so the invocation proceeds with the (possibly whitespace-only) primary
text and returns a best-effort result; `ocr_pdf_text` itself does raise
the "backend unavailable" error, but is unreachable in that situation. -/
theorem c3_amended (pageTexts : List String) (pages : List PyPage)
    (path : String) (ocrTexts : List String) (use_ocr_fallback : Bool) :
    parse_statement pageTexts pages path false ocrTexts use_ocr_fallback =
      Except.ok
        { source_file := path
          extracted := extract_fields_from_text (text_from_pdf pageTexts)
          transactions_tables := extract_transactions_tables pages
          raw_text_snippet := pyTake 2000 (text_from_pdf pageTexts) } ∧
    ocr_pdf_text false ocrTexts =
      Except.error "OCR libs not installed (pdf2image/pytesseract)." := by
  constructor
  · simp only [parse_statement, Bool.and_false, Bool.false_eq_true,
      if_false]
    rfl
  · rfl

/-- C4: code bug visible at the spec's own example — `RE_STATEMENT_PERIOD`
wraps each `(RE_DATE)` around `RE_DATE`'s own capture group, so
`m.groups()` is `(d1, d1, d2, d2)` and the "first two digit-containing
captured substrings" are both the FIRST date: the reported period end
equals its start ("2024-01-01"), not "2024-02-01" as claimed, even though
the second date would normalize to "2024-02-01".  The degraded `except`
path (modelled by a failing normalizer) is a distinct outcome carrying the
raw matched span with confidence 0.6, as the claim's mechanism part
describes. -/
theorem c4_period_end_is_start :
    (extract_fields_from_text
        "Statement Period: Jan 1, 2024 to Feb 1, 2024").statement_period =
      some (SPVal.period "2024-01-01" "2024-01-01") ∧
    (extract_fields_from_text
        "Statement Period: Jan 1, 2024 to Feb 1, 2024").confidence.lookup
      "statement_period" = some (9 / 10) ∧
    parse_dates "Feb 1, 2024" = "2024-02-01" ∧
    statementPeriodBlockG (fun _ => Except.error ())
        "Statement Period: Jan 1, 2024 to Feb 1, 2024" =
      some (SPVal.raw "Statement Period: Jan 1, 2024 to Feb 1, 2024",
        6 / 10) :=
  ⟨by decide, rfl, by decide, rfl⟩

/-- C5 counterexample: a text containing "Account ending in 1234" whose
first masked-account match is an earlier occurrence — last4 is "0000",
not "1234", so the claim's for-every-containing-text quantification
fails. -/
theorem c5_counterexample :
    (extract_fields_from_text "Card 0000 Account ending in 1234").last4 =
      some "0000" ∧
    ¬ ((extract_fields_from_text "Card 0000 Account ending in 1234").last4 =
      some "1234") :=
  ⟨by decide, by decide⟩

/-- C5 amended: on the phrases themselves the claimed values hold
("Account ending in 1234" → "1234", "****5678" → "5678", and 3- or
5-digit runs after asterisks yield nothing), and in general any reported
last4 is exactly 4 digits, so a 3- or 5-digit run is never captured; in
larger texts the first masked-account match of the whole text wins, which
can be an occurrence before the phrase. -/
theorem c5_amended :
    (extract_fields_from_text "Account ending in 1234").last4 =
      some "1234" ∧
    (extract_fields_from_text "****5678").last4 = some "5678" ∧
    (extract_fields_from_text "****12345").last4 = none ∧
    (extract_fields_from_text "***123").last4 = none ∧
    ∀ (text s : String), (extract_fields_from_text text).last4 = some s →
      s.length = 4 ∧ s.data.all Char.isDigit = true := by
  refine ⟨by decide, by decide, by decide, by decide, ?_⟩
  intro text s hs
  rw [extract_last4] at hs
  cases h : last4Block text with
  | none => rw [h] at hs; simp at hs
  | some v =>
    rw [h] at hs
    unfold last4Block at h
    cases hr : reSearch reLast4M text with
    | none => rw [hr] at h; simp at h
    | some gs =>
      rw [hr] at h
      simp only [Option.some.injEq] at h
      subst h
      obtain ⟨d, hd, hlen, hdig⟩ := last4_search_group hr
      simp only [Option.some_bind] at hs
      rw [hd] at hs
      simp only [Option.some.injEq] at hs
      subst hs
      exact ⟨hlen, hdig⟩

/-- Witness for C5's amended statement at a concrete input. -/
theorem c5_amended_witness :
    (extract_fields_from_text "Account ending in 1234").last4 =
      some "1234" ∧
    ("1234".length = 4 ∧ "1234".data.all Char.isDigit = true) :=
  ⟨by decide,
   c5_amended.2.2.2.2 "Account ending in 1234" "1234" (by decide)⟩

theorem digitOf_isDigit (n : Nat) : (digitOf n).isDigit = true := by
  unfold digitOf
  have h : n % 10 < 10 := Nat.mod_lt _ (by norm_num)
  set k := n % 10 with hk
  interval_cases k <;> decide

/-- C6: `parse_dates` is a total function (the catch-all `except` on line
55 turns every parser exception into the fallback), and for every input it
returns either the trimmed original string unchanged, or the ISO
`YYYY-MM-DD` rendering of the parsed date: length 10, dashes at offsets 4
and 7, digits everywhere else. -/
theorem c6_parse_dates_total_shape (s : String) :
    parse_dates s = pyStrip s ∨
    ∃ d, dateutilParse s = some d ∧ parse_dates s = d.isoformat ∧
      (parse_dates s).length = 10 ∧
      (parse_dates s).data.get? 4 = some '-' ∧
      (parse_dates s).data.get? 7 = some '-' ∧
      (parse_dates s).data.map Char.isDigit =
        [true, true, true, true, false, true, true, false, true, true] := by
  cases h : dateutilParse s with
  | none =>
    left
    unfold parse_dates
    rw [h]
  | some d =>
    right
    have hp : parse_dates s = d.isoformat := by
      unfold parse_dates
      rw [h]
    refine ⟨d, rfl, hp, ?_, ?_, ?_, ?_⟩ <;>
      rw [hp] <;>
      unfold PyDate.isoformat <;>
      simp [digitOf_isDigit]

/-! ### Support lemmas about the table normalizer -/

theorem dictInsert_keys {α : Type} (m : List (String × α)) (k : String)
    (v : α) :
    (dictInsert m k v).map Prod.fst =
      if k ∈ m.map Prod.fst then m.map Prod.fst
      else m.map Prod.fst ++ [k] := by
  unfold dictInsert
  by_cases h : m.any (fun kv => kv.1 = k)
  · have hk : k ∈ m.map Prod.fst := by
      simp only [List.any_eq_true, decide_eq_true_eq] at h
      obtain ⟨kv, hkv, he⟩ := h
      exact he ▸ List.mem_map_of_mem Prod.fst hkv
    rw [if_pos h, if_pos hk, List.map_map]
    refine List.map_congr_left ?_
    intro kv _
    by_cases hkv : kv.1 = k <;> simp [hkv]
  · have hk : k ∉ m.map Prod.fst := by
      simp only [List.any_eq_true, decide_eq_true_eq] at h
      intro hc
      obtain ⟨kv, hkv, he⟩ := List.mem_map.mp hc
      exact h ⟨kv, hkv, he⟩
    rw [if_neg h, if_neg hk, List.map_append]
    rfl

theorem foldl_dictInsert_keys {α : Type} (key : Nat → String)
    (val : Nat → α) :
    ∀ (l : List Nat) (m : List (String × α)),
      (l.foldl (fun m i => dictInsert m (key i) (val i)) m).map Prod.fst =
        l.foldl (fun acc i => if key i ∈ acc then acc else acc ++ [key i])
          (m.map Prod.fst) := by
  intro l
  induction l with
  | nil => intro m; rfl
  | cons i is ih =>
    intro m
    simp only [List.foldl_cons]
    rw [ih, dictInsert_keys]

/-- The keys of a row's record are the effective labels with Python-dict
first-occurrence deduplication. -/
theorem rowMapping_keys (header row : List (Option String)) :
    (rowMapping header row).map Prod.fst =
      dedupFirst (effLabels header row.length) := by
  unfold rowMapping dedupFirst effLabels
  rw [foldl_dictInsert_keys (headerLabel header) (cellAt row), List.foldl_map]
  rfl

theorem dedupFirst_step_nodup :
    ∀ (l : List String) (acc : List String), acc.Nodup →
      (l.foldl (fun acc k => if k ∈ acc then acc else acc ++ [k])
        acc).Nodup := by
  intro l
  induction l with
  | nil => intro acc h; exact h
  | cons k ks ih =>
    intro acc h
    simp only [List.foldl_cons]
    by_cases hk : k ∈ acc
    · rw [if_pos hk]
      exact ih acc h
    · rw [if_neg hk]
      refine ih _ ?_
      simp [List.nodup_append, h, hk]

theorem dedupFirst_nodup (ks : List String) : (dedupFirst ks).Nodup :=
  dedupFirst_step_nodup ks [] List.nodup_nil

theorem foldl_dictInsert_no_collision {α : Type} (key : Nat → String)
    (val : Nat → α) :
    ∀ (l : List Nat) (m : List (String × α)),
      (∀ i ∈ l, key i ∉ m.map Prod.fst) →
      List.Pairwise (fun i j => key i ≠ key j) l →
      l.foldl (fun m i => dictInsert m (key i) (val i)) m =
        m ++ l.map (fun i => (key i, val i)) := by
  intro l
  induction l with
  | nil => intro m _ _; simp
  | cons i is ih =>
    intro m hnm hpw
    simp only [List.foldl_cons]
    have hki : key i ∉ m.map Prod.fst := hnm i (List.mem_cons_self _ _)
    have hins : dictInsert m (key i) (val i) = m ++ [(key i, val i)] := by
      unfold dictInsert
      rw [if_neg ?_]
      simp only [List.any_eq_true, decide_eq_true_eq, not_exists]
      intro kv hkv
      exact hki (hkv.2 ▸ List.mem_map_of_mem Prod.fst hkv.1)
    obtain ⟨hpw1, hpw2⟩ := List.pairwise_cons.mp hpw
    rw [hins, ih (m ++ [(key i, val i)]) ?_ hpw2]
    · simp
    · intro j hj
      simp only [List.map_append, List.mem_append, List.map_cons,
        List.map_nil, List.mem_singleton, not_or]
      exact ⟨hnm j (List.mem_cons_of_mem _ hj), fun he => hpw1 j hj he.symm⟩

/-- With pairwise-distinct effective labels, a row's record lists exactly
one entry per column index, in order. -/
theorem rowMapping_no_collision (header row : List (Option String))
    (hnd : (effLabels header row.length).Nodup) :
    rowMapping header row =
      (List.range (max header.length row.length)).map
        (fun i => (headerLabel header i, cellAt row i)) := by
  unfold rowMapping
  have hpw : List.Pairwise
      (fun i j => headerLabel header i ≠ headerLabel header j)
      (List.range (max header.length row.length)) := by
    have := hnd
    unfold effLabels at this
    exact List.pairwise_map.mp this
  rw [foldl_dictInsert_no_collision (headerLabel header) (cellAt row) _ []
    (by simp) hpw]
  simp

/-- Every table in the output has at least one record (zero-record tables
are dropped). -/
theorem extract_tables_rows_ne_nil (pages : List PyPage) :
    ∀ tb ∈ extract_transactions_tables pages, tb.rows ≠ [] := by
  unfold extract_transactions_tables
  suffices hout : ∀ (ps : List PyPage) (res : List TableOut),
      (∀ tb ∈ res, tb.rows ≠ []) →
      ∀ tb ∈ ps.foldl
        (fun res p =>
          p.tables.foldl
            (fun res t =>
              match t with
              | [] => res
              | header :: rows =>
                let df_rows := rows.map (rowMapping header)
                if df_rows ≠ [] then res ++ [⟨p.page_number, df_rows⟩]
                else res)
            res)
        res, tb.rows ≠ [] by
    exact hout pages [] (by simp)
  have hinner : ∀ (pnum : Nat)
      (tables : List (List (List (Option String))))
      (res : List TableOut),
      (∀ tb ∈ res, tb.rows ≠ []) →
      ∀ tb ∈ tables.foldl
        (fun res t =>
          match t with
          | [] => res
          | header :: rows =>
            let df_rows := rows.map (rowMapping header)
            if df_rows ≠ [] then res ++ [⟨pnum, df_rows⟩] else res)
        res, tb.rows ≠ [] := by
    intro pnum tables
    induction tables with
    | nil => intro res h; exact h
    | cons t ts ih =>
      intro res h
      simp only [List.foldl_cons]
      apply ih
      cases t with
      | nil => exact h
      | cons header rows =>
        dsimp only
        by_cases hdf : rows.map (rowMapping header) ≠ []
        · rw [if_pos hdf]
          intro tb htb
          rcases List.mem_append.mp htb with h1 | h1
          · exact h tb h1
          · simp only [List.mem_singleton] at h1
            subst h1
            exact hdf
        · rw [if_neg hdf]
          exact h
  intro ps
  induction ps with
  | nil => intro res h; exact h
  | cons p pps ih =>
    intro res h
    simp only [List.foldl_cons]
    exact ih _ (hinner p.page_number p.tables res h)

/-- C7 counterexample: with header `["Date"]` and data rows `["a"]` and
`["b","c"]`, the two records of the same table have different label sets
({Date} versus {Date, col1}): the label set is not fixed per table by the
header when a row is longer than the header. -/
theorem c7_counterexample :
    ¬ (∀ tb ∈ extract_transactions_tables
        [⟨1, [[[some "Date"], [some "a"], [some "b", some "c"]]]⟩],
        ∀ r1 ∈ tb.rows, ∀ r2 ∈ tb.rows,
          (r1.map Prod.fst).toFinset = (r2.map Prod.fst).toFinset) := by
  intro h
  have hout : extract_transactions_tables
      [⟨1, [[[some "Date"], [some "a"], [some "b", some "c"]]]⟩] =
      [⟨1, [[("Date", some "a")],
            [("Date", some "b"), ("col1", some "c")]]⟩] := rfl
  have h2 := h ⟨1, [[("Date", some "a")],
      [("Date", some "b"), ("col1", some "c")]]⟩
    (by rw [hout]; exact List.mem_singleton.mpr rfl)
  have h3 := h2 [("Date", some "a")] (by simp)
    [("Date", some "b"), ("col1", some "c")] (by simp)
  have h4 : ("col1" : String) ∈
      (([("Date", some "b"), ("col1", some "c")] :
        List (String × Option String)).map Prod.fst).toFinset := by
    simp
  rw [← h3] at h4
  simp at h4

/-- C7 amended: a record's labels are the effective labels (header cell
when present and non-empty, else the positional synthetic "col<i>") for
the indices up to max(header length, row length), with Python-dict
first-occurrence deduplication — so they depend on the header AND the
row's length; labels are unique within a record; for rows no longer than
the header the label set is fixed by the header alone. -/
theorem c7_amended (header row : List (Option String)) :
    ((rowMapping header row).map Prod.fst =
      dedupFirst (effLabels header row.length)) ∧
    ((rowMapping header row).map Prod.fst).Nodup ∧
    (row.length ≤ header.length →
      (rowMapping header row).map Prod.fst =
        dedupFirst (effLabels header header.length)) := by
  refine ⟨rowMapping_keys header row, ?_, ?_⟩
  · rw [rowMapping_keys]
    exact dedupFirst_nodup _
  · intro hle
    rw [rowMapping_keys]
    unfold effLabels
    rw [Nat.max_eq_left hle, Nat.max_self]

/-- Witness for C7's amended statement at a concrete table. -/
theorem c7_amended_witness :
    ((rowMapping [some "Date"] [some "a"]).map Prod.fst =
      dedupFirst (effLabels [some "Date"]
        ([some "a"] : List (Option String)).length)) ∧
    ((rowMapping [some "Date"] [some "a"]).map Prod.fst).Nodup ∧
    ((rowMapping [some "Date"] [some "a"]).map Prod.fst =
      dedupFirst (effLabels [some "Date"]
        ([some "Date"] : List (Option String)).length)) :=
  ⟨(c7_amended [some "Date"] [some "a"]).1,
   (c7_amended [some "Date"] [some "a"]).2.1,
   (c7_amended [some "Date"] [some "a"]).2.2 (by decide)⟩

/-- C8 counterexample: duplicate header labels — header `["A","A"]`, row
`["x","y"]` — collapse to a single record entry {A: "y"}: the record does
not cover max(header length, row length) = 2 column indices. -/
theorem c8_counterexample :
    extract_transactions_tables
      [⟨1, [[[some "A", some "A"], [some "x", some "y"]]]⟩] =
      [⟨1, [[("A", some "y")]]⟩] ∧
    ¬ (∀ tb ∈ extract_transactions_tables
        [⟨1, [[[some "A", some "A"], [some "x", some "y"]]]⟩],
        ∀ r ∈ tb.rows, r.length = 2) := by
  refine ⟨rfl, ?_⟩
  intro h
  have h2 := h ⟨1, [[("A", some "y")]]⟩
    (by rw [show extract_transactions_tables
        [⟨1, [[[some "A", some "A"], [some "x", some "y"]]]⟩] =
        [⟨1, [[("A", some "y")]]⟩] from rfl]
        exact List.mem_singleton.mpr rfl)
    [("A", some "y")] (by simp)
  simp at h2

/-- C8 amended: when a row's effective labels are pairwise distinct, the
row normalizes to a record covering exactly max(header length, row length)
column indices in order (longer rows fully represented, missing cells
padded with ""); with duplicate labels a later column overwrites the
earlier entry.  The spec's positive example holds as stated, and any table
producing zero records is dropped from the output entirely. -/
theorem c8_amended :
    (∀ header row : List (Option String),
      (effLabels header row.length).Nodup →
      rowMapping header row =
        (List.range (max header.length row.length)).map
          (fun i => (headerLabel header i, cellAt row i)) ∧
      (rowMapping header row).length = max header.length row.length) ∧
    extract_transactions_tables
      [⟨1, [[[some "Date", some "Amount"],
             [some "1/1/2024", some "10.00"]]]⟩] =
      [⟨1, [[("Date", some "1/1/2024"), ("Amount", some "10.00")]]⟩] ∧
    (∀ pages : List PyPage, ∀ tb ∈ extract_transactions_tables pages,
      tb.rows ≠ []) := by
  refine ⟨?_, rfl, extract_tables_rows_ne_nil⟩
  intro header row hnd
  have he := rowMapping_no_collision header row hnd
  refine ⟨he, ?_⟩
  rw [he]
  simp

/-- Witness for C8's amended statement at concrete inputs. -/
theorem c8_amended_witness :
    (rowMapping [some "Date", some "Amount"]
        [some "1/1/2024", some "10.00"] =
      (List.range (max
        ([some "Date", some "Amount"] : List (Option String)).length
        ([some "1/1/2024", some "10.00"] :
          List (Option String)).length)).map
        (fun i => (headerLabel [some "Date", some "Amount"] i,
          cellAt [some "1/1/2024", some "10.00"] i)) ∧
      (rowMapping [some "Date", some "Amount"]
        [some "1/1/2024", some "10.00"]).length =
        max ([some "Date", some "Amount"] : List (Option String)).length
          ([some "1/1/2024", some "10.00"] :
            List (Option String)).length) ∧
    (⟨1, [[("Date", some "1/1/2024"), ("Amount", some "10.00")]]⟩ :
      TableOut).rows ≠ [] :=
  ⟨c8_amended.1 [some "Date", some "Amount"]
      [some "1/1/2024", some "10.00"] (by decide),
   c8_amended.2.2
     [⟨1, [[[some "Date", some "Amount"],
            [some "1/1/2024", some "10.00"]]]⟩]
     ⟨1, [[("Date", some "1/1/2024"), ("Amount", some "10.00")]]⟩
     (by rw [show extract_transactions_tables
         [⟨1, [[[some "Date", some "Amount"],
                [some "1/1/2024", some "10.00"]]]⟩] =
         [⟨1, [[("Date", some "1/1/2024"), ("Amount", some "10.00")]]⟩]
         from rfl]
         exact List.mem_singleton.mpr rfl)⟩

end PdfParse
